import Mathlib

/-!
Verification of `tensorrt_llm/llmapi/llm_utils.py`.

This file shallowly embeds the decision layer of `llm_utils.py`:

* `_ConfigArbitrator` (baseline `setup`, `claim_func`, `claim_perf`,
  `_arbitrate`, `__call__`) together with the Python `dict` semantics it
  relies on (insertion order, in-place update, `copy.copy` shallow copies
  that alias the inner per-config dicts);
* `ModelLoader.get_model_format` and `ModelLoader.BuildPipeline`;
* `CachedModelLoader` (`build_cache_enabled`, `get_engine_dir`,
  `_build_model`, `__call__`) with the external `build_cache` module
  abstracted behind explicit inputs;
* the stable (sorted-keys) JSON serialization used for the engine cache
  key in `CachedModelLoader._get_engine_cache_stage`.

Python dictionaries are modelled as association lists in insertion order:
`d[k] = v` updates the existing entry in place or appends a new one, which
is exactly CPython's observable behaviour for iteration order.
-/

namespace LlmUtils

/-- A Python value stored in a configuration option (`Any` in the source;
only scalar option values occur in the arbitrated configs). -/
inductive Val where
  | bool (b : Bool)
  | nat (n : Nat)
  | str (s : String)
  deriving DecidableEq, Repr

/-- A Python `dict` with `String` keys, in insertion order. -/
abbrev Dict (α : Type) := List (String × α)

namespace Dict

/-- `d.get(k)` / `k in d`: the value stored at `k`, if any. -/
def find? {α : Type} : Dict α → String → Option α
  | [], _ => none
  | (k', v) :: d, k => if k' = k then some v else find? d k

/-- `d[k] = v`: update in place if `k` is present, else append (CPython
keeps the first-insertion position of a key on update). -/
def set {α : Type} : Dict α → String → α → Dict α
  | [], k, v => [(k, v)]
  | (k', v') :: d, k, v => if k' = k then (k', v) :: d else (k', v') :: set d k v

/-- `k in d`. -/
def contains {α : Type} (d : Dict α) (k : String) : Bool :=
  (find? d k).isSome

/-- `list(d.keys())`. -/
def keys {α : Type} (d : Dict α) : List String :=
  d.map Prod.fst

end Dict

/-- The exceptions the embedded fragment of `llm_utils.py` can raise. -/
inductive PyErr where
  /-- A failed `assert` statement (Python `AssertionError`); raised by
  `_ConfigArbitrator.setup` when a baseline is re-registered with a
  different value. -/
  | assertFail
  /-- `ConfigArbitrateError`.  The fields carry, in order, the data
  interpolated into the source's message "Cannot set option to be value
  when enabling func, since existing_func has set it to be
  existing_value": the conflicting option, the newly requested value, the
  newly claiming feature, the feature recorded as prior provenance, and
  the previously set value. -/
  | configArbitrateError (option : String) (value : Val) (func : String)
      (existing_func : String) (existing_value : Val)
  deriving DecidableEq, Repr

/-- State of `_ConfigArbitrator`.  Fallback callbacks (`Optional[Callable]`)
are modelled by optional identifiers; the arbitration result reports which
fallbacks were invoked. -/
structure Arb where
  /-- `self.virtual_configs : {config_name: {option: value}}` -/
  virtual_configs : Dict (Dict Val)
  /-- `self.func_claims : {config_name: [(func_name, {option: value})]}` -/
  func_claims : Dict (List (String × Dict Val))
  /-- `self.perf_claims : {perf_name: [(config_name, {option: value}, fallback)]}` -/
  perf_claims : Dict (List (String × Dict Val × Option Nat))
  /-- `self.option_sources : {config_name: {option: error_information}}` -/
  option_sources : Dict (Dict String)

/-- `_ConfigArbitrator.__init__`. -/
def Arb.empty : Arb := ⟨[], [], [], []⟩

/-- The option loop of `_ConfigArbitrator.setup`:
`assert config.get(option, value) == value; config[option] = value;
option_sources[option] = info`. -/
def setupLoop (info : String) :
    List (String × Val) → Dict Val → Dict String →
    Except PyErr (Dict Val × Dict String)
  | [], vc, os => .ok (vc, os)
  | (k, v) :: rest, vc, os =>
    if (Dict.find? vc k).getD v = v then
      setupLoop info rest (Dict.set vc k v) (Dict.set os k info)
    else
      .error .assertFail

/-- `_ConfigArbitrator.setup(info, config_name, **kwargs)`. -/
def Arb.setup (a : Arb) (info config_name : String) (kwargs : List (String × Val)) :
    Except PyErr Arb :=
  match setupLoop info kwargs
      ((Dict.find? a.virtual_configs config_name).getD [])
      ((Dict.find? a.option_sources config_name).getD []) with
  | .error e => .error e
  | .ok (vc, os) =>
      .ok { a with
        virtual_configs := Dict.set a.virtual_configs config_name vc
        option_sources := Dict.set a.option_sources config_name os }

/-- `_ConfigArbitrator.claim_func(func, config_name, **options)`:
append to `self.func_claims.setdefault(config_name, [])`. -/
def Arb.claim_func (a : Arb) (func config_name : String) (options : Dict Val) : Arb :=
  { a with
    func_claims := Dict.set a.func_claims config_name
      ((Dict.find? a.func_claims config_name).getD [] ++ [(func, options)]) }

/-- `_ConfigArbitrator.claim_perf(perf, config_name, fallback, **options)`:
append to `self.perf_claims.setdefault(perf, [])`. -/
def Arb.claim_perf (a : Arb) (perf config_name : String) (fallback : Option Nat)
    (options : Dict Val) : Arb :=
  { a with
    perf_claims := Dict.set a.perf_claims perf
      ((Dict.find? a.perf_claims perf).getD [] ++ [(config_name, options, fallback)]) }

/-- Inner option loop of the functionality phase of
`_ConfigArbitrator._arbitrate`: an already-set equal value is a no-op, a
different value raises `ConfigArbitrateError`, an unset option is recorded
together with its provenance. -/
def funcOptsLoop (func : String) :
    List (String × Val) → Dict Val → Dict String →
    Except PyErr (Dict Val × Dict String)
  | [], vc, os => .ok (vc, os)
  | (k, v) :: rest, vc, os =>
    match Dict.find? vc k with
    | some v0 =>
      if v0 = v then
        funcOptsLoop func rest vc os
      else
        .error (.configArbitrateError k v func ((Dict.find? os k).getD "") v0)
    | none => funcOptsLoop func rest (Dict.set vc k v) (Dict.set os k func)

/-- `for func, options in funcs:` of the functionality phase. -/
def funcClaimsLoop :
    List (String × Dict Val) → Dict Val → Dict String →
    Except PyErr (Dict Val × Dict String)
  | [], vc, os => .ok (vc, os)
  | (func, opts) :: rest, vc, os =>
    match funcOptsLoop func opts vc os with
    | .error e => .error e
    | .ok (vc', os') => funcClaimsLoop rest vc' os'

/-- `for config_name, funcs in self.func_claims.items():` of the
functionality phase, threading `virtual_configs` / `option_sources`. -/
def funcConfigsLoop :
    List (String × List (String × Dict Val)) →
    Dict (Dict Val) → Dict (Dict String) →
    Except PyErr (Dict (Dict Val) × Dict (Dict String))
  | [], vcs, oss => .ok (vcs, oss)
  | (cn, claims) :: rest, vcs, oss =>
    match funcClaimsLoop claims ((Dict.find? vcs cn).getD [])
        ((Dict.find? oss cn).getD []) with
    | .error e => .error e
    | .ok (vc, os) =>
        funcConfigsLoop rest (Dict.set vcs cn vc) (Dict.set oss cn os)

/-- Inner option loop of the performance phase: a present-but-different
value sets `restore = True` and breaks; otherwise the option value and its
`option_source` are (over-)written.  Returns the (possibly partially)
mutated dicts and whether a conflict occurred. -/
def perfOptsLoop (perf : String) :
    List (String × Val) → Dict Val → Dict String →
    Dict Val × Dict String × Bool
  | [], vc, os => (vc, os, false)
  | (k, v) :: rest, vc, os =>
    match Dict.find? vc k with
    | some v0 =>
      if v0 = v then
        perfOptsLoop perf rest (Dict.set vc k v) (Dict.set os k perf)
      else
        (vc, os, true)
    | none => perfOptsLoop perf rest (Dict.set vc k v) (Dict.set os k perf)

/-- `for config_name, options, fallback in options:` of the performance
phase, acting on the working (shallow-copied) outer dicts.  On a conflict
it stops and reports the fallback of the conflicting entry (`some fb`);
`none` means the whole claim applied cleanly. -/
def perfEntriesLoop (perf : String) :
    List (String × Dict Val × Option Nat) →
    Dict (Dict Val) → Dict (Dict String) →
    Dict (Dict Val) × Dict (Dict String) × Option (Option Nat)
  | [], wv, wo => (wv, wo, none)
  | (cn, opts, fb) :: rest, wv, wo =>
    let step := perfOptsLoop perf opts ((Dict.find? wv cn).getD [])
      ((Dict.find? wo cn).getD [])
    let wv' := Dict.set wv cn step.1
    let wo' := Dict.set wo cn step.2.1
    if step.2.2 then (wv', wo', some fb)
    else perfEntriesLoop perf rest wv' wo'

/-- One performance claim of `_ConfigArbitrator._arbitrate`.

The source takes `copy.copy` (shallow) snapshots of the two outer dicts:
the inner per-config dicts are aliased, so every mutation of a config that
existed before the attempt survives even when the claim is abandoned, and
only configs first created during the attempt are dropped.  On a conflict
the fallback of the conflicting entry is invoked (reported in the returned
list); on success the working dicts are committed. -/
def perfClaim (perf : String) (entries : List (String × Dict Val × Option Nat))
    (vcs : Dict (Dict Val)) (oss : Dict (Dict String)) :
    Dict (Dict Val) × Dict (Dict String) × List Nat :=
  match perfEntriesLoop perf entries vcs oss with
  | (wv, wo, none) => (wv, wo, [])
  | (wv, wo, some fb) =>
      (wv.filter (fun p => Dict.contains vcs p.1),
       wo.filter (fun p => Dict.contains oss p.1),
       fb.toList)

/-- `for perf, options in self.perf_claims.items():` of the performance
phase.  Also accumulates the identifiers of the invoked fallbacks. -/
def perfPhase :
    List (String × List (String × Dict Val × Option Nat)) →
    Dict (Dict Val) → Dict (Dict String) →
    Dict (Dict Val) × Dict (Dict String) × List Nat
  | [], vcs, oss => (vcs, oss, [])
  | (perf, entries) :: rest, vcs, oss =>
    let step := perfClaim perf entries vcs oss
    let next := perfPhase rest step.1 step.2.1
    (next.1, next.2.1, step.2.2 ++ next.2.2)

/-- `_ConfigArbitrator._arbitrate`: the functionality phase followed by the
performance phase.  Returns the arbitrator with its resolved
`virtual_configs` / `option_sources` and the invoked fallbacks. -/
def Arb.arbitrate (a : Arb) : Except PyErr (Arb × List Nat) :=
  match funcConfigsLoop a.func_claims a.virtual_configs a.option_sources with
  | .error e => .error e
  | .ok (vcs, oss) =>
      let p := perfPhase a.perf_claims vcs oss
      .ok ({ a with virtual_configs := p.1, option_sources := p.2.1 }, p.2.2)

/-- The write-back loop of `_ConfigArbitrator.__call__`: for each live
config passed by the caller whose name has a virtual config, assign every
arbitrated option by `setattr`.  Live config objects are modelled as
attribute dictionaries. -/
def applyVirtual (configs : Dict (Dict Val)) (vcs : Dict (Dict Val)) :
    Dict (Dict Val) :=
  configs.map fun nc =>
    match Dict.find? vcs nc.1 with
    | some vc => (nc.1, vc.foldl (fun c kv => Dict.set c kv.1 kv.2) nc.2)
    | none => nc

/-- `_ConfigArbitrator.__call__(**configs)`: arbitrate, then apply the
virtual configs to the caller's live configs.  Returns the updated live
configs and the invoked fallbacks. -/
def Arb.call (a : Arb) (configs : Dict (Dict Val)) :
    Except PyErr (Dict (Dict Val) × List Nat) :=
  match a.arbitrate with
  | .error e => .error e
  | .ok (a', fired) => .ok (applyVirtual configs a'.virtual_configs, fired)

/-- A functional claim as registered through `claim_func`:
(feature name, config name, options). -/
abbrev FuncClaim := String × String × Dict Val

/-- Register a sequence of functional claims on a fresh arbitrator. -/
def regFuncs (claims : List FuncClaim) : Arb :=
  claims.foldl (fun a c => a.claim_func c.1 c.2.1 c.2.2) Arb.empty

/-- The effect of one `claim_func` call on the `func_claims` dict. -/
def regStep (fc : Dict (List (String × Dict Val))) (c : FuncClaim) :
    Dict (List (String × Dict Val)) :=
  Dict.set fc c.2.1 ((Dict.find? fc c.2.1).getD [] ++ [(c.1, c.2.2)])

/-- All (config group, option key) pairs targeted by a claim sequence. -/
def claimPairs (claims : List FuncClaim) : List (String × String) :=
  claims.flatMap fun c => c.2.2.map fun kv => (c.2.1, kv.1)

/-- The claims of a sequence that target config group `cn`, in
registration order, as they end up in `func_claims[cn]`. -/
def claimsFor (cn : String) (claims : List FuncClaim) : List (String × Dict Val) :=
  (claims.filter fun c => decide (c.2.1 = cn)).map fun c => (c.1, c.2.2)

/-- Concatenation of the option dicts of a claim list. -/
def flatOpts (cs : List (String × Dict Val)) : Dict Val :=
  cs.flatMap (·.2)

/-! ### `ModelLoader.get_model_format` -/

/-- `_ModelFormatKind`. -/
inductive ModelFormatKind where
  | TLLM_ENGINE
  | TLLM_CKPT
  | HF
  deriving DecidableEq, Repr

/-- The aspects of a model directory that `ModelLoader.get_model_format`
inspects: whether `config.json` exists and parses, its top-level keys, and
whether the per-format config loader (`EngineConfig.from_json_file`,
`PretrainedConfig.from_checkpoint`, `AutoConfig.from_hugging_face`)
succeeds.  The loaders are external collaborators; their success is an
input. -/
structure ModelDirM where
  has_config_json : Bool
  json_parse_ok : Bool
  config_keys : List String
  engine_config_load_ok : Bool
  ckpt_config_load_ok : Bool
  hf_config_load_ok : Bool
  deriving DecidableEq, Repr

/-- The errors `get_model_format` can raise. -/
inductive FormatErr where
  /-- `ValueError`: no `config.json` exists in the model dir. -/
  | noConfigJson
  /-- `json.load` failure on an unreadable `config.json` (propagates). -/
  | jsonDecode
  /-- `ValueError`: "Inferred model format ..., but failed to load
  config.json" (the per-format config loader raised). -/
  | loadFailed (inferred : ModelFormatKind)
  deriving DecidableEq, Repr

/-- `ModelLoader.get_model_format(model_dir)`. -/
def get_model_format (d : ModelDirM) : Except FormatErr ModelFormatKind :=
  if !d.has_config_json then .error .noConfigJson
  else if !d.json_parse_ok then .error .jsonDecode
  else
    let fmt :=
      if "pretrained_config" ∈ d.config_keys ∧ "build_config" ∈ d.config_keys then
        ModelFormatKind.TLLM_ENGINE
      else if "architecture" ∈ d.config_keys ∧ "dtype" ∈ d.config_keys then
        ModelFormatKind.TLLM_CKPT
      else
        ModelFormatKind.HF
    let load_ok :=
      match fmt with
      | .TLLM_ENGINE => d.engine_config_load_ok
      | .TLLM_CKPT => d.ckpt_config_load_ok
      | .HF => d.hf_config_load_ok
    if load_ok then .ok fmt else .error (.loadFailed fmt)

/-! ### `ModelLoader.BuildPipeline` -/

/-- Behaviour of one externally supplied build step: it either completes
(with some wall-clock latency, an opaque input to the model) or raises. -/
inductive StepBeh where
  | ok (latency : Nat)
  | raises
  deriving DecidableEq, Repr

/-- A registered pipeline step: (label, behaviour). -/
abbrev Step := String × StepBeh

/-- Whether a step completes without raising. -/
def stepOk : Step → Bool
  | (_, .ok _) => true
  | (_, .raises) => false

/-- The `(label, latency)` entry recorded for a completed step. -/
def stepEntry : Step → String × Nat
  | (l, .ok t) => (l, t)
  | (l, .raises) => (l, 0)

/-- `ModelLoader.BuildPipeline.__call__` / `step_forward`, folded over the
registered steps in order: each step's handler runs, then `release_gc()`,
then the `(label, latency)` entry is appended to
`llm_build_stats.build_steps_info`.  A raising handler propagates
immediately: the remaining statements of `step_forward` (including the
`release_gc()` call and the stats append) and all remaining steps are
skipped.  Returns (final `build_steps_info`, number of `release_gc` calls,
whether an exception escaped the pipeline). -/
def runSteps : List Step → List (String × Nat) →
    List (String × Nat) × Nat × Bool
  | [], stats => (stats, 0, false)
  | (_, .raises) :: _, stats => (stats, 0, true)
  | (label, .ok t) :: rest, stats =>
    let r := runSteps rest (stats ++ [(label, t)])
    (r.1, r.2.1 + 1, r.2.2)

/-- The number of steps that begin execution: the successful prefix plus
the raising step, if any. -/
def startedSteps (steps : List Step) : Nat :=
  (steps.takeWhile stepOk).length +
    (if steps.any fun s => !stepOk s then 1 else 0)

/-- C6 as stated, at one input: the pipeline forces a memory reclaim after
every step that began execution, regardless of whether the step succeeded
or raised. -/
def gcAfterEveryStartedStep (steps : List Step) : Prop :=
  (runSteps steps []).2.1 = startedSteps steps

/-! ### `CachedModelLoader` -/

/-- Result of the `free_storage_in_gb` probe inside the `try` block of
`CachedModelLoader._build_model`: a reported capacity, a `ValueError`, or
any other exception (both exception arms set `has_storage = False`). -/
inductive StorageProbe where
  | ok (gb : Rat)
  | raisesValueError
  | raisesOther
  deriving DecidableEq, Repr

/-- The engine directories that appear in `CachedModelLoader`. -/
inductive EnginePath where
  /-- `llm_args.model_dir` (engine passed in directly). -/
  | modelDir
  /-- `engine_cache_stage.get_engine_path()`: the cache slot. -/
  | cacheSlot
  /-- the directory yielded by `engine_cache_stage.write_guard()`
  (`build_cache.py` is not under src/; the guard hands out the directory it
  later publishes). -/
  | writeGuardDir
  /-- `self.workspace / "tmp.engine"`: the ephemeral non-cache location. -/
  | workspaceTmp
  deriving DecidableEq, Repr

/-- The inputs that determine `CachedModelLoader`'s control flow.
`env_build_cache` is the first component of
`get_build_cache_config_from_env()` (build_cache.py, not under src/);
`engine_is_cached` is what `engine_cache_stage.is_cached()` reports;
the storage probe and the model directory size stand for
`free_storage_in_gb()` and `get_directory_size_in_gb(model_dir)`. -/
structure LoaderEnv where
  model_format : ModelFormatKind
  enable_build_cache : Bool
  env_build_cache : Bool
  auto_parallel : Bool
  is_local_model : Bool
  storage_probe : StorageProbe
  model_dir_size_gb : Rat
  engine_is_cached : Bool
  deriving DecidableEq, Repr

/-- `CachedModelLoader.build_cache_enabled`. -/
def build_cache_enabled (e : LoaderEnv) : Bool :=
  (e.enable_build_cache || e.env_build_cache) &&
    decide (e.model_format = ModelFormatKind.HF) && !e.auto_parallel

/-- `CachedModelLoader.get_engine_dir`. -/
def get_engine_dir (e : LoaderEnv) : EnginePath :=
  if e.model_format = ModelFormatKind.TLLM_ENGINE then .modelDir
  else if build_cache_enabled e then .cacheSlot
  else .workspaceTmp

/-- The `has_storage` computation of `CachedModelLoader._build_model`:
initialized to `True`, and only re-computed (under `try`) when the build
cache is enabled and the model is local; any exception from the probe
yields `False`. -/
def hasStorage (e : LoaderEnv) : Bool :=
  if build_cache_enabled e then
    if e.is_local_model then
      match e.storage_probe with
      | .ok free => decide (free ≥ e.model_dir_size_gb)
      | .raisesValueError => false
      | .raisesOther => false
    else true
  else true

/-- Observable outcome of `CachedModelLoader._build_model`: the returned
engine directory, where `build_task` actually built (none when the model
format is `TLLM_ENGINE`, for which `build_task` does nothing), whether the
build ran inside `engine_cache_stage.write_guard()`, and the
`LlmBuildStats` fields it assigns (`cache_hitted`, `cache_info`), starting
from a fresh `LlmBuildStats` (defaults `False` / `None`). -/
structure BuildOutcome where
  engine_dir : EnginePath
  builtAt : Option EnginePath
  underGuard : Bool
  cache_hitted : Bool
  cache_info : Option String
  deriving DecidableEq, Repr

/-- `CachedModelLoader._build_model`. -/
def build_model (e : LoaderEnv) : BuildOutcome :=
  let hs := hasStorage e
  let enabled := build_cache_enabled e
  let target := if enabled && hs then EnginePath.writeGuardDir else get_engine_dir e
  { engine_dir := get_engine_dir e
    builtAt :=
      if e.model_format = ModelFormatKind.TLLM_ENGINE then none else some target
    underGuard := enabled && hs
    cache_hitted := enabled && hs
    cache_info :=
      if enabled && !hs then some "The cache root directory is too small."
      else none }

/-- C3 as stated, at one input: with the cache enabled and free storage
under the model size, the build goes to the ephemeral non-cache location,
the cache-hit flag is false and the diagnostic is recorded. -/
def storageFallbackToEphemeral (e : LoaderEnv) : Prop :=
  (build_model e).builtAt = some EnginePath.workspaceTmp ∧
  (build_model e).cache_hitted = false ∧
  (build_model e).cache_info = some "The cache root directory is too small."

/-- What `CachedModelLoader.__call__` does. -/
inductive CallOutcome where
  /-- engine input: return `llm_args.model_dir` untouched. -/
  | engineInput
  /-- `engine_cache_stage.is_cached()` was true: reuse the cached engine
  (sets `cache_hitted = True`). -/
  | cacheHit
  /-- fall through to `_build_model`. -/
  | fresh (o : BuildOutcome)
  deriving DecidableEq, Repr

/-- Outcome of `CachedModelLoader.__call__` plus whether the build cache
was consulted (an `engine_cache_stage` was created and `is_cached()`
queried). -/
structure CallResult where
  outcome : CallOutcome
  cacheConsulted : Bool
  deriving DecidableEq, Repr

/-- `CachedModelLoader.__call__`. -/
def loaderCall (e : LoaderEnv) : CallResult :=
  if e.model_format = ModelFormatKind.TLLM_ENGINE then ⟨.engineInput, false⟩
  else if build_cache_enabled e then
    if e.engine_is_cached then ⟨.cacheHit, true⟩
    else ⟨.fresh (build_model e), true⟩
  else ⟨.fresh (build_model e), false⟩

/-! ### Cache-key serialization (`CachedModelLoader._get_engine_cache_stage`) -/

/-- JSON rendering of a scalar config value (`json.dumps`). -/
def renderVal : Val → String
  | .bool true => "true"
  | .bool false => "false"
  | .nat n => toString n
  | .str s => "\"" ++ s ++ "\""

/-- The keys of `d` in sorted order (`json.dumps(dic, sort_keys=True)`). -/
def sortedKeys (d : Dict Val) : List String :=
  List.insertionSort (fun a b => a ≤ b) (Dict.keys d)

/-- The `serialize` helper of `CachedModelLoader._get_engine_cache_stage`:
`json.dumps(dic, sort_keys=True)` of a config rendered as a dict — keys in
sorted order, independent of the dict's insertion order. -/
def serialize (d : Dict Val) : String :=
  "\x7b" ++ String.intercalate ", "
    ((sortedKeys d).map fun k =>
      "\"" ++ k ++ "\": " ++ renderVal ((Dict.find? d k).getD (Val.str ""))) ++ "\x7d"

/-- Modelled from the spec: the engine cache fingerprint.
`BuildCache.get_engine_building_cache_stage` lives in
`tensorrt_llm/llmapi/build_cache.py`, which is not under src/; per the
spec the fingerprint is a deterministic value derived from the stable
serialization of the build config (minus the plugin sub-config), the
plugin config, the parallel topology, the pretrained-model config and the
quantization config.  The string arguments mirror
`_get_engine_cache_stage`, which passes `serialize(parallel_config)`,
`serialize(pretrained_config)` and `serialize(quant_config)`.  The
concatenated stable serialization stands for the hash: any deterministic
hash of it inherits the determinism property proved here. -/
def engineCacheKey (build_config plugin_config parallel_config
    pretrained_config quant_config : Dict Val) : String :=
  serialize build_config ++ "|" ++ serialize plugin_config ++ "|" ++
    serialize parallel_config ++ "|" ++ serialize pretrained_config ++ "|" ++
    serialize quant_config

/-! ### Concrete scenario inputs used when settling individual claims -/

/-- An arbitrator holding a functional claim `f` that sets option `a` of
group `g` to false, followed by one performance claim `p` (fallback id 0)
requesting, in one `claim_perf` call, `b = true` and then `a = true` on
the same group.  The perf claim must be abandoned because of `a`. -/
def c2Arb : Arb :=
  (Arb.empty.claim_func "f" "g" [("a", Val.bool false)]).claim_perf
    "p" "g" (some 0) [("b", Val.bool true), ("a", Val.bool true)]

/-- A cache-enabled local HF model whose directory size (2 GB) exceeds the
reported free cache storage (1 GB). -/
def c3Env : LoaderEnv :=
  { model_format := .HF
    enable_build_cache := true
    env_build_cache := false
    auto_parallel := false
    is_local_model := true
    storage_probe := .ok 1
    model_dir_size_gb := 2
    engine_is_cached := false }

/-- A pipeline whose first step completes (latency 1) and whose second
step raises. -/
def c6Steps : List Step := [("load", .ok 1), ("convert", .raises)]

/-! ## Lemmas about the dictionary model -/

theorem Dict.find?_set_self {α : Type} (d : Dict α) (k : String) (v : α) :
    Dict.find? (Dict.set d k v) k = some v := by
  induction d with
  | nil => simp [Dict.set, Dict.find?]
  | cons p d ih =>
    obtain ⟨k', v'⟩ := p
    by_cases h : k' = k
    · simp [Dict.set, Dict.find?, h]
    · simp [Dict.set, Dict.find?, h, ih]

theorem Dict.find?_set_ne {α : Type} (d : Dict α) {k' k : String} (v : α)
    (h : k' ≠ k) : Dict.find? (Dict.set d k' v) k = Dict.find? d k := by
  induction d with
  | nil => simp [Dict.set, Dict.find?, h]
  | cons p d ih =>
    obtain ⟨k0, v0⟩ := p
    by_cases h0 : k0 = k'
    · subst h0
      simp [Dict.set, Dict.find?, h]
    · simp only [Dict.set, if_neg h0, Dict.find?]
      by_cases h1 : k0 = k
      · simp [h1]
      · simp [h1, ih]

theorem Dict.set_of_find?_none {α : Type} {d : Dict α} {k : String} (v : α)
    (h : Dict.find? d k = none) : Dict.set d k v = d ++ [(k, v)] := by
  induction d with
  | nil => simp [Dict.set]
  | cons p d ih =>
    obtain ⟨k0, v0⟩ := p
    simp only [Dict.find?] at h
    by_cases h0 : k0 = k
    · simp [h0] at h
    · simp only [if_neg h0] at h
      simp [Dict.set, h0, ih h]

theorem Dict.find?_append_of_none {α : Type} {d₁ : Dict α} {k : String}
    (d₂ : Dict α) (h : Dict.find? d₁ k = none) :
    Dict.find? (d₁ ++ d₂) k = Dict.find? d₂ k := by
  induction d₁ with
  | nil => simp
  | cons p d ih =>
    obtain ⟨k0, v0⟩ := p
    simp only [Dict.find?] at h ⊢
    by_cases h0 : k0 = k
    · simp [h0] at h
    · simp only [if_neg h0] at h ⊢
      exact ih h

theorem Dict.find?_append_of_some {α : Type} {d₁ : Dict α} {k : String} {v : α}
    (d₂ : Dict α) (h : Dict.find? d₁ k = some v) :
    Dict.find? (d₁ ++ d₂) k = some v := by
  induction d₁ with
  | nil => simp [Dict.find?] at h
  | cons p d ih =>
    obtain ⟨k0, v0⟩ := p
    simp only [Dict.find?] at h ⊢
    by_cases h0 : k0 = k
    · simpa [h0] using h
    · simp only [if_neg h0] at h ⊢
      exact ih h

theorem Dict.find?_eq_none_iff {α : Type} {d : Dict α} {k : String} :
    Dict.find? d k = none ↔ k ∉ Dict.keys d := by
  induction d with
  | nil => simp [Dict.find?, Dict.keys]
  | cons p d ih =>
    obtain ⟨k0, v0⟩ := p
    by_cases h0 : k0 = k
    · simp [Dict.find?, Dict.keys, h0]
    · simp [Dict.find?, Dict.keys, h0, ih, Ne.symm h0]

theorem Dict.mem_of_find? {α : Type} {d : Dict α} {k : String} {v : α}
    (h : Dict.find? d k = some v) : (k, v) ∈ d := by
  induction d with
  | nil => simp [Dict.find?] at h
  | cons p d ih =>
    obtain ⟨k0, v0⟩ := p
    simp only [Dict.find?] at h
    by_cases h0 : k0 = k
    · rw [if_pos h0] at h
      injection h with h
      subst h0
      subst h
      exact List.mem_cons_self _ _
    · simp only [if_neg h0] at h
      exact List.mem_cons_of_mem _ (ih h)

theorem Dict.find?_of_mem {α : Type} {d : Dict α}
    (nd : (Dict.keys d).Nodup) {k : String} {v : α} (h : (k, v) ∈ d) :
    Dict.find? d k = some v := by
  induction d with
  | nil => simp at h
  | cons p d ih =>
    obtain ⟨k0, v0⟩ := p
    simp only [Dict.keys, List.map_cons, List.nodup_cons] at nd
    rcases List.mem_cons.1 h with h1 | h1
    · simp only [Prod.mk.injEq] at h1
      obtain ⟨rfl, rfl⟩ := h1
      simp [Dict.find?]
    · have hk : k0 ≠ k := by
        rintro rfl
        exact nd.1 (by simpa [Dict.keys] using List.mem_map_of_mem Prod.fst h1)
      simp only [Dict.find?, if_neg hk]
      exact ih nd.2 h1

theorem Dict.keys_set_of_none {α : Type} {d : Dict α} {k : String} (v : α)
    (h : Dict.find? d k = none) :
    Dict.keys (Dict.set d k v) = Dict.keys d ++ [k] := by
  rw [Dict.set_of_find?_none v h]
  simp [Dict.keys]

theorem Dict.keys_set_of_some {α : Type} {d : Dict α} {k : String} {v0 : α}
    (v : α) (h : Dict.find? d k = some v0) :
    Dict.keys (Dict.set d k v) = Dict.keys d := by
  induction d with
  | nil => simp [Dict.find?] at h
  | cons p d ih =>
    obtain ⟨k0, w⟩ := p
    simp only [Dict.find?] at h
    by_cases h0 : k0 = k
    · simp [Dict.set, h0, Dict.keys]
    · simp only [if_neg h0] at h
      have hrec := ih h
      simp only [Dict.keys] at hrec
      simp only [Dict.set, if_neg h0, Dict.keys, List.map_cons, hrec]

theorem Dict.nodup_keys_set {α : Type} {d : Dict α} {k : String} (v : α)
    (nd : (Dict.keys d).Nodup) : (Dict.keys (Dict.set d k v)).Nodup := by
  cases h : Dict.find? d k with
  | none =>
    rw [Dict.keys_set_of_none v h]
    have : k ∉ Dict.keys d := Dict.find?_eq_none_iff.1 h
    simp [List.nodup_append, nd, this]
  | some v0 =>
    rw [Dict.keys_set_of_some v h]
    exact nd

/-! ## C1, C2, C7: the configuration arbitrator -/

/-- C1: two functional claims registered via `claim_func` on the same
config group and key with different values make arbitration (triggered by
calling the arbitrator on the live configs) raise the conflict error
(`ConfigArbitrateError` in the source, the spec's `ConfigConflictError`)
carrying both the newly claiming feature and the feature recorded as the
prior provenance of the option, in either registration order; with equal
values no error is raised and the claimed value is kept and written onto
the live config. -/
theorem c1_functional_conflict (g k : String) (v1 v2 : Val) (f1 f2 : String)
    (cfgs : Dict (Dict Val)) (obj : Dict Val) (h : v1 ≠ v2) :
    ((Arb.empty.claim_func f1 g [(k, v1)]).claim_func f2 g [(k, v2)]).call cfgs
        = .error (.configArbitrateError k v2 f2 f1 v1) ∧
    ((Arb.empty.claim_func f2 g [(k, v2)]).claim_func f1 g [(k, v1)]).call cfgs
        = .error (.configArbitrateError k v1 f1 f2 v2) ∧
    ((Arb.empty.claim_func f1 g [(k, v1)]).claim_func f2 g [(k, v1)]).call [(g, obj)]
        = .ok ([(g, Dict.set obj k v1)], []) ∧
    Dict.find? (Dict.set obj k v1) k = some v1 := by
  refine ⟨?_, ?_, ?_, Dict.find?_set_self obj k v1⟩
  · simp [Arb.call, Arb.arbitrate, Arb.claim_func, Arb.empty, funcConfigsLoop,
      funcClaimsLoop, funcOptsLoop, Dict.set, Dict.find?, h]
  · simp [Arb.call, Arb.arbitrate, Arb.claim_func, Arb.empty, funcConfigsLoop,
      funcClaimsLoop, funcOptsLoop, Dict.set, Dict.find?, Ne.symm h]
  · simp [Arb.call, Arb.arbitrate, Arb.claim_func, Arb.empty, funcConfigsLoop,
      funcClaimsLoop, funcOptsLoop, perfPhase, applyVirtual, Dict.set, Dict.find?]

/-- Witness for `c1_functional_conflict`, at the spec's end-to-end
scenario: features featureA/featureB on group "plugin", option "optX". -/
theorem c1_witness :
    Val.bool true ≠ Val.bool false ∧
    (((Arb.empty.claim_func "featureA" "plugin" [("optX", Val.bool true)]).claim_func
        "featureB" "plugin" [("optX", Val.bool false)]).call []
      = .error (.configArbitrateError "optX" (Val.bool false) "featureB" "featureA"
          (Val.bool true)) ∧
    ((Arb.empty.claim_func "featureB" "plugin" [("optX", Val.bool false)]).claim_func
        "featureA" "plugin" [("optX", Val.bool true)]).call []
      = .error (.configArbitrateError "optX" (Val.bool true) "featureA" "featureB"
          (Val.bool false)) ∧
    ((Arb.empty.claim_func "featureA" "plugin" [("optX", Val.bool true)]).claim_func
        "featureB" "plugin" [("optX", Val.bool true)]).call [("plugin", [])]
      = .ok ([("plugin", Dict.set [] "optX" (Val.bool true))], []) ∧
    Dict.find? (Dict.set [] "optX" (Val.bool true)) "optX" = some (Val.bool true)) :=
  ⟨by decide,
   c1_functional_conflict "plugin" "optX" (Val.bool true) (Val.bool false)
     "featureA" "featureB" [] [] (by decide)⟩

/-- C2 (code bug witness): the performance phase of
`_ConfigArbitrator._arbitrate` snapshots the outer dicts with `copy.copy`,
a shallow copy that aliases the inner per-config dicts, so a perf claim
that is abandoned is NOT rolled back atomically.  At `c2Arb`, the
functional phase leaves group "g" at exactly `a = false` and provenance
`f` (first equation); the perf claim `p` requests `b = true, a = true`,
conflicts on `a`, is abandoned with its fallback (id 0) invoked exactly
once — yet its earlier write `b = true` persists in the resolved configs
(second equation), contradicting the claimed state equality. -/
theorem c2_partial_application_leak :
    funcConfigsLoop c2Arb.func_claims [] []
      = .ok ([("g", [("a", Val.bool false)])], [("g", [("a", "f")])]) ∧
    (c2Arb.arbitrate.map fun r => (r.1.virtual_configs, r.2))
      = .ok ([("g", [("a", Val.bool false), ("b", Val.bool true)])], [0]) :=
  ⟨rfl, rfl⟩

/-- C7: registering the same (group, key) baseline twice through
`_ConfigArbitrator.setup` with differing values fails (the source's
`assert config.get(option, value) == value` raises `AssertionError`, the
failure the spec labels `InconsistentBaselineError`); registering it again
with the same value succeeds and keeps the value. -/
theorem c7_inconsistent_baseline (g k info1 info2 : String) (v1 v2 : Val)
    (h : v1 ≠ v2) :
    ((Arb.empty.setup info1 g [(k, v1)]).bind fun a => a.setup info2 g [(k, v2)])
      = .error PyErr.assertFail ∧
    ∃ a2,
      ((Arb.empty.setup info1 g [(k, v1)]).bind fun a => a.setup info2 g [(k, v1)])
        = .ok a2 ∧
      Dict.find? ((Dict.find? a2.virtual_configs g).getD []) k = some v1 := by
  constructor
  · simp [Arb.setup, Arb.empty, setupLoop, Dict.set, Dict.find?, Except.bind, h]
  · refine ⟨⟨[(g, [(k, v1)])], [], [], [(g, [(k, info2)])]⟩, ?_, ?_⟩
    · simp [Arb.setup, Arb.empty, setupLoop, Dict.set, Dict.find?, Except.bind]
    · simp [Dict.set, Dict.find?]

/-- Witness for `c7_inconsistent_baseline` at a concrete baseline:
`enable_block_reuse` on `kv_cache_config`. -/
theorem c7_witness :
    Val.bool false ≠ Val.bool true ∧
    (((Arb.empty.setup "pre-ampere not supported" "kv_cache_config"
          [("enable_block_reuse", Val.bool false)]).bind fun a =>
        a.setup "post-check" "kv_cache_config"
          [("enable_block_reuse", Val.bool true)])
      = .error PyErr.assertFail ∧
    ∃ a2,
      ((Arb.empty.setup "pre-ampere not supported" "kv_cache_config"
          [("enable_block_reuse", Val.bool false)]).bind fun a =>
        a.setup "post-check" "kv_cache_config"
          [("enable_block_reuse", Val.bool false)])
        = .ok a2 ∧
      Dict.find? ((Dict.find? a2.virtual_configs "kv_cache_config").getD [])
        "enable_block_reuse" = some (Val.bool false)) :=
  ⟨by decide,
   c7_inconsistent_baseline "kv_cache_config" "enable_block_reuse"
     "pre-ampere not supported" "post-check" (Val.bool false) (Val.bool true)
     (by decide)⟩

/-! ## C3, C9, C10: `CachedModelLoader` -/

/-- C3 counterexample: at `c3Env` (cache enabled, local HF model, free
storage 1 GB < model size 2 GB) the claim as stated fails: the build is
NOT redirected to the ephemeral non-cache location — `get_engine_dir`
still selects the cache slot because `build_cache_enabled` ignores the
storage shortfall, so `build_task` writes into the cache slot path
(outside the write guard). -/
theorem c3_counterexample :
    ¬ storageFallbackToEphemeral c3Env ∧
    (build_model c3Env).builtAt = some EnginePath.cacheSlot := by
  constructor
  · intro hclaim
    have : (build_model c3Env).builtAt = some EnginePath.workspaceTmp := hclaim.1
    exact absurd this (by decide)
  · decide

/-- C3 (amended): when the build cache is enabled for a local model and
the reported free storage is below the model directory size, the build
completes without raising, the cache write guard is skipped for this
invocation, the cache-hit flag is false and the diagnostic string "The
cache root directory is too small." is recorded — but the engine is still
written to the cache-slot path returned by `get_engine_dir` (which keeps
selecting the cache slot because `build_cache_enabled` does not depend on
storage), not to an ephemeral location. -/
theorem c3_storage_fallback (e : LoaderEnv) (free : Rat)
    (henabled : build_cache_enabled e = true)
    (hlocal : e.is_local_model = true)
    (hprobe : e.storage_probe = .ok free)
    (hfree : free < e.model_dir_size_gb) :
    build_model e =
      { engine_dir := EnginePath.cacheSlot
        builtAt := some EnginePath.cacheSlot
        underGuard := false
        cache_hitted := false
        cache_info := some "The cache root directory is too small." } ∧
    get_engine_dir e = EnginePath.cacheSlot := by
  have hfmt : e.model_format = ModelFormatKind.HF := by
    have h := henabled
    simp only [build_cache_enabled, Bool.and_eq_true, decide_eq_true_eq] at h
    exact h.1.2
  have hge : ¬(free ≥ e.model_dir_size_gb) := not_le.mpr hfree
  have hhs : hasStorage e = false := by
    simp [hasStorage, henabled, hlocal, hprobe, hge]
  have hdir : get_engine_dir e = EnginePath.cacheSlot := by
    simp [get_engine_dir, hfmt, henabled]
  refine ⟨?_, hdir⟩
  simp [build_model, henabled, hhs, hdir, hfmt]

/-- Witness for `c3_storage_fallback` at `c3Env`. -/
theorem c3_witness :
    build_cache_enabled c3Env = true ∧ c3Env.is_local_model = true ∧
    c3Env.storage_probe = .ok 1 ∧ (1 : Rat) < c3Env.model_dir_size_gb ∧
    (build_model c3Env =
      { engine_dir := EnginePath.cacheSlot
        builtAt := some EnginePath.cacheSlot
        underGuard := false
        cache_hitted := false
        cache_info := some "The cache root directory is too small." } ∧
    get_engine_dir c3Env = EnginePath.cacheSlot) :=
  ⟨by decide, by decide, by decide, by decide,
   c3_storage_fallback c3Env 1 (by decide) (by decide) (by decide) (by decide)⟩

/-- C9: with the build cache enabled, no cached engine, and sufficient
storage, `CachedModelLoader.__call__` falls through to `_build_model`,
which runs the build inside `engine_cache_stage.write_guard()` and then
sets `LlmBuildStats.cache_hitted = True` even though this was a fresh
build, not a reuse of a previously cached engine. -/
theorem c9_cache_hit_flag_after_fresh_build (e : LoaderEnv)
    (henabled : build_cache_enabled e = true)
    (hmiss : e.engine_is_cached = false)
    (hstorage : hasStorage e = true) :
    loaderCall e = ⟨.fresh (build_model e), true⟩ ∧
    (build_model e).underGuard = true ∧
    (build_model e).cache_hitted = true ∧
    (build_model e).builtAt = some EnginePath.writeGuardDir := by
  have hfmt : e.model_format = ModelFormatKind.HF := by
    have h := henabled
    simp only [build_cache_enabled, Bool.and_eq_true, decide_eq_true_eq] at h
    exact h.1.2
  refine ⟨?_, ?_, ?_, ?_⟩ <;>
    simp [loaderCall, build_model, henabled, hmiss, hstorage, hfmt]

/-- Witness for `c9_cache_hit_flag_after_fresh_build`: a local HF model
with 10 GB free for a 2 GB model and no cached engine. -/
theorem c9_witness :
    build_cache_enabled
        { model_format := .HF, enable_build_cache := true,
          env_build_cache := false, auto_parallel := false,
          is_local_model := true, storage_probe := .ok 10,
          model_dir_size_gb := 2, engine_is_cached := false } = true ∧
    (loaderCall
        { model_format := .HF, enable_build_cache := true,
          env_build_cache := false, auto_parallel := false,
          is_local_model := true, storage_probe := .ok 10,
          model_dir_size_gb := 2, engine_is_cached := false }).outcome =
      .fresh (build_model
        { model_format := .HF, enable_build_cache := true,
          env_build_cache := false, auto_parallel := false,
          is_local_model := true, storage_probe := .ok 10,
          model_dir_size_gb := 2, engine_is_cached := false }) ∧
    (build_model
        { model_format := .HF, enable_build_cache := true,
          env_build_cache := false, auto_parallel := false,
          is_local_model := true, storage_probe := .ok 10,
          model_dir_size_gb := 2, engine_is_cached := false }).cache_hitted = true :=
  ⟨by decide,
   congrArg CallResult.outcome
     (c9_cache_hit_flag_after_fresh_build _ (by decide) (by decide) (by decide)).1,
   (c9_cache_hit_flag_after_fresh_build _ (by decide) (by decide) (by decide)).2.2.1⟩

/-- C10: `build_cache_enabled` holds exactly when (the caller or the
environment enables the cache) and the model format is raw HF and auto
parallel is off; consequently, for checkpoint or prebuilt-engine inputs
and in auto-parallel mode, `__call__` never consults the cache
(`is_cached` is not queried) and never writes it (no write guard, no
cache-hit flag), regardless of the enable flags. -/
theorem c10_build_cache_enabled_iff (e : LoaderEnv) :
    (build_cache_enabled e = true ↔
      ((e.enable_build_cache = true ∨ e.env_build_cache = true) ∧
        e.model_format = ModelFormatKind.HF ∧ e.auto_parallel = false)) ∧
    (e.model_format = ModelFormatKind.TLLM_CKPT ∨
        e.model_format = ModelFormatKind.TLLM_ENGINE ∨ e.auto_parallel = true →
      (loaderCall e).cacheConsulted = false ∧
      (loaderCall e).outcome ≠ CallOutcome.cacheHit ∧
      ∀ o, (loaderCall e).outcome = .fresh o →
        o.underGuard = false ∧ o.cache_hitted = false) := by
  constructor
  · simp [build_cache_enabled, Bool.and_eq_true, Bool.or_eq_true,
      decide_eq_true_eq, Bool.not_eq_true', and_assoc]
  · intro hcase
    have hoff : build_cache_enabled e = false := by
      rcases hcase with h | h | h
      · simp [build_cache_enabled, h]
      · simp [build_cache_enabled, h]
      · simp [build_cache_enabled, h]
    by_cases hE : e.model_format = ModelFormatKind.TLLM_ENGINE
    · refine ⟨?_, ?_, ?_⟩ <;> simp [loaderCall, hE]
    · refine ⟨?_, ?_, ?_⟩
      · simp [loaderCall, hE, hoff]
      · simp [loaderCall, hE, hoff]
      · intro o ho
        have : o = build_model e := by
          simpa [loaderCall, hE, hoff] using ho.symm
        subst this
        simp [build_model, hoff]

/-- Witness for `c10_build_cache_enabled_iff` at a checkpoint-format input
with the cache explicitly enabled. -/
theorem c10_witness :
    (ModelFormatKind.TLLM_CKPT = ModelFormatKind.TLLM_CKPT ∨
      ModelFormatKind.TLLM_CKPT = ModelFormatKind.TLLM_ENGINE ∨ True) ∧
    ((loaderCall
        { model_format := .TLLM_CKPT, enable_build_cache := true,
          env_build_cache := true, auto_parallel := false,
          is_local_model := true, storage_probe := .ok 10,
          model_dir_size_gb := 2, engine_is_cached := true }).cacheConsulted
      = false ∧
    (loaderCall
        { model_format := .TLLM_CKPT, enable_build_cache := true,
          env_build_cache := true, auto_parallel := false,
          is_local_model := true, storage_probe := .ok 10,
          model_dir_size_gb := 2, engine_is_cached := true }).outcome
      ≠ CallOutcome.cacheHit) :=
  ⟨Or.inl rfl,
   ((c10_build_cache_enabled_iff _).2 (Or.inl rfl)).1,
   ((c10_build_cache_enabled_iff _).2 (Or.inl rfl)).2.1⟩

/-! ## C5, C6: `get_model_format` and the build pipeline -/

/-- C5: `ModelLoader.get_model_format` classifies a model directory solely
from `config.json`: both "pretrained_config" and "build_config" present
gives the prebuilt-engine format; otherwise both "architecture" and
"dtype" gives the checkpoint format; otherwise the raw HF format — in
each case provided the corresponding config loader succeeds, else a
`ValueError`; a missing or unreadable `config.json` is an error before any
build step. -/
theorem c5_model_format (d : ModelDirM) :
    (d.has_config_json = false → get_model_format d = .error .noConfigJson) ∧
    (d.has_config_json = true → d.json_parse_ok = false →
      get_model_format d = .error .jsonDecode) ∧
    (d.has_config_json = true → d.json_parse_ok = true →
      (("pretrained_config" ∈ d.config_keys ∧ "build_config" ∈ d.config_keys) →
        get_model_format d =
          if d.engine_config_load_ok then .ok .TLLM_ENGINE
          else .error (.loadFailed .TLLM_ENGINE)) ∧
      (¬("pretrained_config" ∈ d.config_keys ∧ "build_config" ∈ d.config_keys) →
        ("architecture" ∈ d.config_keys ∧ "dtype" ∈ d.config_keys) →
        get_model_format d =
          if d.ckpt_config_load_ok then .ok .TLLM_CKPT
          else .error (.loadFailed .TLLM_CKPT)) ∧
      (¬("pretrained_config" ∈ d.config_keys ∧ "build_config" ∈ d.config_keys) →
        ¬("architecture" ∈ d.config_keys ∧ "dtype" ∈ d.config_keys) →
        get_model_format d =
          if d.hf_config_load_ok then .ok .HF
          else .error (.loadFailed .HF))) := by
  refine ⟨fun h1 => ?_, fun h1 h2 => ?_, fun h1 h2 => ⟨fun hm => ?_, fun hm1 hm2 => ?_,
    fun hm1 hm2 => ?_⟩⟩
  · simp [get_model_format, h1]
  · simp [get_model_format, h1, h2]
  · simp only [get_model_format, h1, h2, Bool.not_true, Bool.false_eq_true,
      if_false, if_pos hm]
  · simp only [get_model_format, h1, h2, Bool.not_true, Bool.false_eq_true,
      if_false, if_neg hm1, if_pos hm2]
  · simp only [get_model_format, h1, h2, Bool.not_true, Bool.false_eq_true,
      if_false, if_neg hm1, if_neg hm2]

/-- Witness for `c5_model_format`: a directory without `config.json`. -/
theorem c5_witness :
    (⟨false, true, [], true, true, true⟩ : ModelDirM).has_config_json = false ∧
    get_model_format ⟨false, true, [], true, true, true⟩ = .error .noConfigJson :=
  ⟨rfl, (c5_model_format ⟨false, true, [], true, true, true⟩).1 rfl⟩

/-- C6 counterexample: at `c6Steps` (a successful step, then a raising
step) the pipeline performs only one forced gc — the raising step
propagates out of `step_forward` before its `release_gc()` — refuting the
claim that transient resources are released after every step regardless
of whether the step succeeded or raised (the code has 1 gc call, the
claim demands 2). -/
theorem c6_counterexample :
    ¬ gcAfterEveryStartedStep c6Steps ∧
    (runSteps c6Steps []).2.1 = 1 ∧ startedSteps c6Steps = 2 := by
  refine ⟨?_, rfl, rfl⟩
  intro hclaim
  have : (1 : Nat) = 2 := hclaim
  exact absurd this (by decide)

/-- C6 (amended): `BuildPipeline` executes the registered steps strictly
in registration order; each successfully completed step is followed by a
forced memory reclaim and appends its (label, latency) entry to the build
statistics; a raising step aborts the remaining sequence immediately —
skipping its own reclaim and stats entry — while the entries of all
previously completed steps are preserved. -/
theorem c6_pipeline_order_and_abort (steps : List Step)
    (stats : List (String × Nat)) :
    runSteps steps stats =
      (stats ++ (steps.takeWhile stepOk).map stepEntry,
       (steps.takeWhile stepOk).length,
       steps.any fun s => !stepOk s) := by
  induction steps generalizing stats with
  | nil => simp [runSteps]
  | cons s rest ih =>
    obtain ⟨label, beh⟩ := s
    cases beh with
    | raises => simp [runSteps, stepOk]
    | ok t => simp [runSteps, ih, stepOk, stepEntry]

/-! ## C4: cache-key determinism -/

theorem Dict.nodup_keys_perm {α : Type} {d1 d2 : Dict α} (hp : List.Perm d1 d2)
    (nd : (Dict.keys d1).Nodup) : (Dict.keys d2).Nodup :=
  ((hp.map Prod.fst).nodup_iff).1 nd

/-- Lookup in a key-nodup dict is invariant under permutation of the
entries (two iteration orders of the same logical dict agree). -/
theorem Dict.find?_perm {α : Type} {d1 d2 : Dict α} (hp : List.Perm d1 d2)
    (nd : (Dict.keys d1).Nodup) (k : String) :
    Dict.find? d1 k = Dict.find? d2 k := by
  cases h : Dict.find? d1 k with
  | some v =>
    exact (Dict.find?_of_mem (Dict.nodup_keys_perm hp nd)
      (hp.mem_iff.1 (Dict.mem_of_find? h))).symm
  | none =>
    have h1 : k ∉ Dict.keys d1 := Dict.find?_eq_none_iff.1 h
    have h2 : k ∉ Dict.keys d2 := fun hk => h1 ((hp.map Prod.fst).mem_iff.2 hk)
    exact (Dict.find?_eq_none_iff.2 h2).symm

/-- The sorted key list only depends on the logical dict, not on its
insertion/iteration order. -/
theorem sortedKeys_perm {d1 d2 : Dict Val} (hp : List.Perm d1 d2) :
    sortedKeys d1 = sortedKeys d2 := by
  have hk : List.Perm (Dict.keys d1) (Dict.keys d2) := hp.map Prod.fst
  unfold sortedKeys
  exact List.eq_of_perm_of_sorted (r := fun a b => a ≤ b)
    (((List.perm_insertionSort _ _).trans hk).trans
      (List.perm_insertionSort _ _).symm)
    (List.sorted_insertionSort _ _) (List.sorted_insertionSort _ _)

/-- `json.dumps(dic, sort_keys=True)` is stable: two iteration orders of
the same logical dict serialize identically. -/
theorem serialize_perm {d1 d2 : Dict Val} (hp : List.Perm d1 d2)
    (nd : (Dict.keys d1).Nodup) : serialize d1 = serialize d2 := by
  have hf : ∀ k, Dict.find? d1 k = Dict.find? d2 k := Dict.find?_perm hp nd
  unfold serialize
  rw [sortedKeys_perm hp]
  simp only [hf]

/-- C4: the engine cache key is a deterministic function of the logical
configuration: for equal logical inputs — the same key/value bindings,
presented in any internal dict iteration order (as after a process
restart) — every computation produces the identical fingerprint, because
the cache-stage serialization sorts keys and depends on nothing else
(no addresses, no timestamps). -/
theorem c4_fingerprint_deterministic
    (bc1 bc2 pc1 pc2 par1 par2 pt1 pt2 q1 q2 : Dict Val)
    (hbc : List.Perm bc1 bc2) (hbcn : (Dict.keys bc1).Nodup)
    (hpc : List.Perm pc1 pc2) (hpcn : (Dict.keys pc1).Nodup)
    (hpar : List.Perm par1 par2) (hparn : (Dict.keys par1).Nodup)
    (hpt : List.Perm pt1 pt2) (hptn : (Dict.keys pt1).Nodup)
    (hq : List.Perm q1 q2) (hqn : (Dict.keys q1).Nodup) :
    engineCacheKey bc1 pc1 par1 pt1 q1 = engineCacheKey bc2 pc2 par2 pt2 q2 := by
  unfold engineCacheKey
  rw [serialize_perm hbc hbcn, serialize_perm hpc hpcn, serialize_perm hpar hparn,
    serialize_perm hpt hptn, serialize_perm hq hqn]

/-- Witness for `c4_fingerprint_deterministic`: two runs presenting the
same configs with different internal dict orders. -/
theorem c4_witness :
    List.Perm [("max_batch_size", Val.nat 8), ("strongly_typed", Val.bool true)]
      [("strongly_typed", Val.bool true), ("max_batch_size", Val.nat 8)] ∧
    engineCacheKey
        [("max_batch_size", Val.nat 8), ("strongly_typed", Val.bool true)]
        [("use_paged_context_fmha", Val.bool false)]
        [("tp_size", Val.nat 2), ("pp_size", Val.nat 1)]
        [("architecture", Val.str "LlamaForCausalLM"), ("dtype", Val.str "float16")]
        [("quant_algo", Val.str "FP8")]
      = engineCacheKey
        [("strongly_typed", Val.bool true), ("max_batch_size", Val.nat 8)]
        [("use_paged_context_fmha", Val.bool false)]
        [("pp_size", Val.nat 1), ("tp_size", Val.nat 2)]
        [("dtype", Val.str "float16"), ("architecture", Val.str "LlamaForCausalLM")]
        [("quant_algo", Val.str "FP8")] :=
  ⟨by decide,
   c4_fingerprint_deterministic _ _ _ _ _ _ _ _ _ _
     (by decide) (by decide) (by decide) (by decide) (by decide)
     (by decide) (by decide) (by decide) (by decide) (by decide)⟩

/-! ## C8: conflict-free functional claims resolve in full -/

theorem foldl_claim_func (claims : List FuncClaim) (a : Arb) :
    claims.foldl (fun a c => a.claim_func c.1 c.2.1 c.2.2) a =
      { a with func_claims := claims.foldl regStep a.func_claims } := by
  induction claims generalizing a with
  | nil => simp
  | cons c rest ih =>
    rw [List.foldl_cons]
    exact ih _

theorem regFuncs_spec (claims : List FuncClaim) :
    regFuncs claims =
      { virtual_configs := [], func_claims := claims.foldl regStep [],
        perf_claims := [], option_sources := [] } := by
  unfold regFuncs
  rw [foldl_claim_func]
  rfl

theorem find?_foldl_regStep (claims : List FuncClaim)
    (fc : Dict (List (String × Dict Val))) (cn : String) :
    (Dict.find? (claims.foldl regStep fc) cn).getD [] =
      (Dict.find? fc cn).getD [] ++ claimsFor cn claims := by
  induction claims generalizing fc with
  | nil => simp [claimsFor]
  | cons c rest ih =>
    rw [List.foldl_cons, ih]
    by_cases h : c.2.1 = cn
    · have hfind : Dict.find? (regStep fc c) cn =
          some ((Dict.find? fc cn).getD [] ++ [(c.1, c.2.2)]) := by
        rw [regStep, h, Dict.find?_set_self]
      rw [hfind]
      simp [claimsFor, List.filter_cons, h, List.append_assoc]
    · have hfind : Dict.find? (regStep fc c) cn = Dict.find? fc cn := by
        rw [regStep, Dict.find?_set_ne _ _ h]
      rw [hfind]
      simp [claimsFor, List.filter_cons, h]

theorem nodup_keys_foldl_regStep (claims : List FuncClaim)
    (fc : Dict (List (String × Dict Val))) (nd : (Dict.keys fc).Nodup) :
    (Dict.keys (claims.foldl regStep fc)).Nodup := by
  induction claims generalizing fc with
  | nil => exact nd
  | cons c rest ih => exact ih _ (Dict.nodup_keys_set _ nd)

theorem filter_pairs_of_group (cn g : String) (opts : Dict Val) :
    (opts.map fun kv => ((g, kv.1) : String × String)).filter
        (fun p => decide (p.1 = cn)) =
      if g = cn then opts.map fun kv => (cn, kv.1) else [] := by
  induction opts with
  | nil => simp
  | cons kv rest ih =>
    simp only [List.map_cons, List.filter_cons]
    by_cases h : g = cn
    · subst h
      simp only [if_pos rfl] at ih
      simp [ih]
    · simp only [if_neg h] at ih
      simp [h, ih]

theorem flatOpts_claimsFor_pairs (cn : String) (claims : List FuncClaim) :
    ((flatOpts (claimsFor cn claims)).map Prod.fst).map (fun k => (cn, k)) =
      (claimPairs claims).filter fun p => decide (p.1 = cn) := by
  induction claims with
  | nil => simp [flatOpts, claimsFor, claimPairs]
  | cons c rest ih =>
    rw [claimPairs, List.flatMap_cons, List.filter_append,
      filter_pairs_of_group cn c.2.1 c.2.2, ← claimPairs]
    by_cases h : c.2.1 = cn
    · rw [if_pos h]
      have hcf : claimsFor cn (c :: rest) = (c.1, c.2.2) :: claimsFor cn rest := by
        simp [claimsFor, List.filter_cons, h]
      have hfo : flatOpts ((c.1, c.2.2) :: claimsFor cn rest) =
          c.2.2 ++ flatOpts (claimsFor cn rest) := by
        simp [flatOpts]
      rw [hcf, hfo, List.map_append, List.map_append, ih]
      have hmm : (c.2.2.map Prod.fst).map (fun k => (cn, k)) =
          c.2.2.map fun kv => (cn, kv.1) := by
        simp [List.map_map, Function.comp]
      rw [hmm]
    · rw [if_neg h]
      have hcf : claimsFor cn (c :: rest) = claimsFor cn rest := by
        simp [claimsFor, List.filter_cons, h]
      rw [hcf, List.nil_append]
      exact ih

theorem flatOpts_claimsFor_nodup (cn : String) (claims : List FuncClaim)
    (hnd : (claimPairs claims).Nodup) :
    ((flatOpts (claimsFor cn claims)).map Prod.fst).Nodup := by
  have h1 : ((claimPairs claims).filter fun p => decide (p.1 = cn)).Nodup :=
    hnd.sublist (List.filter_sublist _)
  rw [← flatOpts_claimsFor_pairs] at h1
  exact h1.of_map _

theorem mem_flatOpts {cs : List (String × Dict Val)} {f : String}
    {opts : Dict Val} (hc : (f, opts) ∈ cs) {kv : String × Val}
    (hkv : kv ∈ opts) : kv ∈ flatOpts cs := by
  rw [flatOpts, List.mem_flatMap]
  exact ⟨(f, opts), hc, hkv⟩

theorem mem_claimsFor {claims : List FuncClaim} {c : FuncClaim}
    (hc : c ∈ claims) : (c.1, c.2.2) ∈ claimsFor c.2.1 claims := by
  rw [claimsFor, List.mem_map]
  exact ⟨c, List.mem_filter.2 ⟨hc, by simp⟩, rfl⟩

theorem funcOptsLoop_fresh (f : String) (opts : List (String × Val)) :
    ∀ (vc : Dict Val) (os : Dict String),
      (opts.map Prod.fst).Nodup →
      (∀ k ∈ opts.map Prod.fst, Dict.find? vc k = none) →
      (∀ k ∈ opts.map Prod.fst, Dict.find? os k = none) →
      funcOptsLoop f opts vc os =
        .ok (vc ++ opts, os ++ opts.map fun kv => (kv.1, f)) := by
  induction opts with
  | nil => intro vc os _ _ _; simp [funcOptsLoop]
  | cons kv rest ih =>
    intro vc os hnd hfv hfo
    obtain ⟨k, v⟩ := kv
    have hk : Dict.find? vc k = none := hfv k (by simp)
    have hok : Dict.find? os k = none := hfo k (by simp)
    simp only [List.map_cons, List.nodup_cons] at hnd
    have hfv' : ∀ k' ∈ rest.map Prod.fst,
        Dict.find? (Dict.set vc k v) k' = none := by
      intro k' hk'
      have hne : k ≠ k' := fun he => hnd.1 (he ▸ hk')
      rw [Dict.find?_set_ne _ _ hne]
      exact hfv k' (by simp [hk'])
    have hfo' : ∀ k' ∈ rest.map Prod.fst,
        Dict.find? (Dict.set os k f) k' = none := by
      intro k' hk'
      have hne : k ≠ k' := fun he => hnd.1 (he ▸ hk')
      rw [Dict.find?_set_ne _ _ hne]
      exact hfo k' (by simp [hk'])
    simp only [funcOptsLoop, hk]
    rw [ih _ _ hnd.2 hfv' hfo', Dict.set_of_find?_none v hk,
      Dict.set_of_find?_none f hok]
    simp [List.append_assoc]

theorem funcClaimsLoop_fresh (cs : List (String × Dict Val)) :
    ∀ (vc : Dict Val) (os : Dict String),
      ((flatOpts cs).map Prod.fst).Nodup →
      (∀ k ∈ (flatOpts cs).map Prod.fst, Dict.find? vc k = none) →
      (∀ k ∈ (flatOpts cs).map Prod.fst, Dict.find? os k = none) →
      funcClaimsLoop cs vc os =
        .ok (vc ++ flatOpts cs,
             os ++ cs.flatMap fun c => c.2.map fun kv => (kv.1, c.1)) := by
  induction cs with
  | nil => intro vc os _ _ _; simp [funcClaimsLoop, flatOpts]
  | cons c rest ih =>
    intro vc os hnd hfv hfo
    obtain ⟨f, opts⟩ := c
    have hflat : flatOpts ((f, opts) :: rest) = opts ++ flatOpts rest := by
      simp [flatOpts]
    rw [hflat, List.map_append] at hnd hfv hfo
    rw [List.nodup_append] at hnd
    obtain ⟨hnd1, hnd2, hdisj⟩ := hnd
    have hfv1 : ∀ k ∈ opts.map Prod.fst, Dict.find? vc k = none := by
      intro k hk
      exact hfv k (List.mem_append_left _ hk)
    have hfo1 : ∀ k ∈ opts.map Prod.fst, Dict.find? os k = none := by
      intro k hk
      exact hfo k (List.mem_append_left _ hk)
    have hopts := funcOptsLoop_fresh f opts vc os hnd1 hfv1 hfo1
    simp only [funcClaimsLoop, hopts]
    have hfv2 : ∀ k ∈ (flatOpts rest).map Prod.fst,
        Dict.find? (vc ++ opts) k = none := by
      intro k hk
      rw [Dict.find?_append_of_none _ (hfv k (List.mem_append_right _ hk))]
      exact Dict.find?_eq_none_iff.2 fun hmem =>
        hdisj (by simpa [Dict.keys] using hmem) hk
    have hfo2 : ∀ k ∈ (flatOpts rest).map Prod.fst,
        Dict.find? (os ++ opts.map fun kv => (kv.1, f)) k = none := by
      intro k hk
      rw [Dict.find?_append_of_none _ (hfo k (List.mem_append_right _ hk))]
      refine Dict.find?_eq_none_iff.2 fun hmem => hdisj ?_ hk
      simpa [Dict.keys, List.map_map, Function.comp] using hmem
    rw [ih _ _ hnd2 hfv2 hfo2]
    simp [hflat, List.append_assoc]

theorem funcConfigsLoop_fresh (es : List (String × List (String × Dict Val))) :
    ∀ (vcs : Dict (Dict Val)) (oss : Dict (Dict String)),
      (∀ e ∈ es, ((flatOpts e.2).map Prod.fst).Nodup) →
      (es.map Prod.fst).Nodup →
      (∀ cn ∈ es.map Prod.fst, Dict.find? vcs cn = none) →
      (∀ cn ∈ es.map Prod.fst, Dict.find? oss cn = none) →
      funcConfigsLoop es vcs oss =
        .ok (vcs ++ es.map fun e => (e.1, flatOpts e.2),
             oss ++ es.map fun e =>
               (e.1, e.2.flatMap fun c => c.2.map fun kv => (kv.1, c.1))) := by
  induction es with
  | nil => intro vcs oss _ _ _ _; simp [funcConfigsLoop]
  | cons e rest ih =>
    intro vcs oss hael hkeys hfv hfo
    obtain ⟨cn, cs⟩ := e
    have hvcn : Dict.find? vcs cn = none := hfv cn (by simp)
    have hocn : Dict.find? oss cn = none := hfo cn (by simp)
    have hclaims := funcClaimsLoop_fresh cs [] []
      (hael (cn, cs) (by simp)) (fun k _ => rfl) (fun k _ => rfl)
    simp only [List.nil_append] at hclaims
    simp only [funcConfigsLoop, hvcn, hocn, Option.getD_none, hclaims]
    simp only [List.map_cons, List.nodup_cons] at hkeys
    have hfv' : ∀ cn' ∈ rest.map Prod.fst,
        Dict.find? (Dict.set vcs cn (flatOpts cs)) cn' = none := by
      intro cn' hcn'
      have hne : cn ≠ cn' := fun he => hkeys.1 (he ▸ hcn')
      rw [Dict.find?_set_ne _ _ hne]
      exact hfv cn' (by simp [hcn'])
    have hfo' : ∀ cn' ∈ rest.map Prod.fst,
        Dict.find? (Dict.set oss cn
          (cs.flatMap fun c => c.2.map fun kv => (kv.1, c.1))) cn' = none := by
      intro cn' hcn'
      have hne : cn ≠ cn' := fun he => hkeys.1 (he ▸ hcn')
      rw [Dict.find?_set_ne _ _ hne]
      exact hfo cn' (by simp [hcn'])
    rw [ih _ _ (fun e he => hael e (by simp [he])) hkeys.2 hfv' hfo',
      Dict.set_of_find?_none _ hvcn, Dict.set_of_find?_none _ hocn]
    simp [List.append_assoc]

theorem find?_map_val {α β : Type} (g : α → β) (es : List (String × α))
    (cn : String) :
    Dict.find? (es.map fun e => (e.1, g e.2)) cn = (Dict.find? es cn).map g := by
  induction es with
  | nil => simp [Dict.find?]
  | cons e rest ih =>
    by_cases h : e.1 = cn
    · simp [Dict.find?, h]
    · simp [Dict.find?, h, ih]

theorem find?_applyVirtual (cfgs vcs : Dict (Dict Val)) (cn : String)
    (obj : Dict Val) (h : Dict.find? cfgs cn = some obj) :
    Dict.find? (applyVirtual cfgs vcs) cn =
      some (match Dict.find? vcs cn with
            | some vc => vc.foldl (fun c kv => Dict.set c kv.1 kv.2) obj
            | none => obj) := by
  induction cfgs with
  | nil => simp [Dict.find?] at h
  | cons e rest ih =>
    obtain ⟨n, o⟩ := e
    by_cases hn : n = cn
    · subst hn
      simp only [Dict.find?, if_pos rfl] at h
      injection h with h
      subst h
      cases hv : Dict.find? vcs n <;>
        simp [applyVirtual, Dict.find?, hv]
    · simp only [Dict.find?, if_neg hn] at h
      cases hv : Dict.find? vcs n <;>
        simpa [applyVirtual, Dict.find?, hv, hn] using ih h

theorem find?_foldl_set_not_mem (vc : Dict Val) :
    ∀ (obj : Dict Val) (k : String), k ∉ vc.map Prod.fst →
      Dict.find? (vc.foldl (fun c kv => Dict.set c kv.1 kv.2) obj) k =
        Dict.find? obj k := by
  induction vc with
  | nil => intro obj k _; rfl
  | cons kv rest ih =>
    intro obj k hk
    simp only [List.map_cons, List.mem_cons, not_or] at hk
    rw [List.foldl_cons, ih _ k hk.2]
    exact Dict.find?_set_ne _ _ fun he => hk.1 he.symm

theorem find?_foldl_set_mem (vc : Dict Val) :
    ∀ (obj : Dict Val), (vc.map Prod.fst).Nodup →
      ∀ {k : String} {v : Val}, (k, v) ∈ vc →
      Dict.find? (vc.foldl (fun c kv => Dict.set c kv.1 kv.2) obj) k = some v := by
  induction vc with
  | nil =>
    intro obj _ k v h
    simp at h
  | cons kv rest ih =>
    intro obj hnd k v h
    obtain ⟨k0, v0⟩ := kv
    simp only [List.map_cons, List.nodup_cons] at hnd
    rw [List.foldl_cons]
    rcases List.mem_cons.1 h with h1 | h1
    · simp only [Prod.mk.injEq] at h1
      obtain ⟨rfl, rfl⟩ := h1
      rw [find?_foldl_set_not_mem rest _ _ hnd.1]
      exact Dict.find?_set_self _ _ _
    · exact ih _ hnd.2 h1

/-- C8: for every sequence of functional claims in which no two claims
target the same (config group, key) pair, arbitration succeeds (no error,
no fallback fired), every claimed (key, value) appears unchanged in the
final resolved configuration, and `__call__` writes it by per-key
attribute assignment onto every caller-supplied live config object of a
claimed group. -/
theorem c8_disjoint_claims_resolve (claims : List FuncClaim)
    (cfgs : Dict (Dict Val)) (hnd : (claimPairs claims).Nodup) :
    ∃ a',
      (regFuncs claims).arbitrate = .ok (a', []) ∧
      (∀ c ∈ claims, ∀ kv ∈ c.2.2,
        Dict.find? ((Dict.find? a'.virtual_configs c.2.1).getD []) kv.1
          = some kv.2) ∧
      (regFuncs claims).call cfgs
        = .ok (applyVirtual cfgs a'.virtual_configs, []) ∧
      (∀ c ∈ claims, ∀ kv ∈ c.2.2, ∀ obj, Dict.find? cfgs c.2.1 = some obj →
        Dict.find? ((Dict.find? (applyVirtual cfgs a'.virtual_configs)
            c.2.1).getD []) kv.1 = some kv.2) := by
  have hkeys : (Dict.keys (claims.foldl regStep [])).Nodup :=
    nodup_keys_foldl_regStep claims [] List.nodup_nil
  have hkeys' : ((claims.foldl regStep []).map Prod.fst).Nodup := hkeys
  have hentry : ∀ e ∈ claims.foldl regStep [], e.2 = claimsFor e.1 claims := by
    intro e he
    have hf : Dict.find? (claims.foldl regStep []) e.1 = some e.2 :=
      Dict.find?_of_mem hkeys (by simpa using he)
    have hg := find?_foldl_regStep claims [] e.1
    rw [hf] at hg
    simpa [Dict.find?] using hg
  have hael : ∀ e ∈ claims.foldl regStep [],
      ((flatOpts e.2).map Prod.fst).Nodup := by
    intro e he
    rw [hentry e he]
    exact flatOpts_claimsFor_nodup e.1 claims hnd
  have hloop := funcConfigsLoop_fresh (claims.foldl regStep []) [] []
    hael hkeys' (fun _ _ => rfl) (fun _ _ => rfl)
  simp only [List.nil_append] at hloop
  have hAfind : ∀ c ∈ claims,
      Dict.find? ((claims.foldl regStep []).map fun e => (e.1, flatOpts e.2))
        c.2.1 = some (flatOpts (claimsFor c.2.1 claims)) := by
    intro c hc
    rw [find?_map_val]
    have hg := find?_foldl_regStep claims [] c.2.1
    simp only [Dict.find?, Option.getD_none, List.nil_append] at hg
    cases hfind : Dict.find? (claims.foldl regStep []) c.2.1 with
    | none =>
      rw [hfind] at hg
      simp only [Option.getD_none] at hg
      have hm := mem_claimsFor hc
      rw [← hg] at hm
      simp at hm
    | some cs =>
      rw [hfind] at hg
      simp only [Option.getD_some] at hg
      simp [hg]
  have h1 : (regFuncs claims).arbitrate =
      .ok ({ virtual_configs :=
               (claims.foldl regStep []).map fun e => (e.1, flatOpts e.2)
             func_claims := claims.foldl regStep []
             perf_claims := []
             option_sources :=
               (claims.foldl regStep []).map fun e =>
                 (e.1, e.2.flatMap fun c => c.2.map fun kv => (kv.1, c.1)) },
        []) := by
    rw [regFuncs_spec]
    simp only [Arb.arbitrate]
    rw [hloop]
    simp [perfPhase]
  have h2 : ∀ c ∈ claims, ∀ kv ∈ c.2.2,
      Dict.find? ((Dict.find? ((claims.foldl regStep []).map fun e =>
          (e.1, flatOpts e.2)) c.2.1).getD []) kv.1 = some kv.2 := by
    intro c hc kv hkv
    rw [hAfind c hc]
    simp only [Option.getD_some]
    exact Dict.find?_of_mem (flatOpts_claimsFor_nodup c.2.1 claims hnd)
      (mem_flatOpts (mem_claimsFor hc) hkv)
  have h3 : (regFuncs claims).call cfgs =
      .ok (applyVirtual cfgs ((claims.foldl regStep []).map fun e =>
        (e.1, flatOpts e.2)), []) := by
    simp only [Arb.call, h1]
  have h4 : ∀ c ∈ claims, ∀ kv ∈ c.2.2, ∀ obj,
      Dict.find? cfgs c.2.1 = some obj →
      Dict.find? ((Dict.find? (applyVirtual cfgs
          ((claims.foldl regStep []).map fun e => (e.1, flatOpts e.2)))
        c.2.1).getD []) kv.1 = some kv.2 := by
    intro c hc kv hkv obj hobj
    have hres := find?_applyVirtual cfgs
      ((claims.foldl regStep []).map fun e => (e.1, flatOpts e.2)) c.2.1 obj hobj
    rw [hAfind c hc] at hres
    rw [hres]
    show Dict.find? ((flatOpts (claimsFor c.2.1 claims)).foldl
      (fun c kv => Dict.set c kv.1 kv.2) obj) kv.1 = some kv.2
    exact find?_foldl_set_mem _ _ (flatOpts_claimsFor_nodup c.2.1 claims hnd)
      (mem_flatOpts (mem_claimsFor hc) hkv)
  exact ⟨_, h1, h2, h3, h4⟩

/-- Witness for `c8_disjoint_claims_resolve`: two non-overlapping
functional claims on different groups, resolved onto two live configs. -/
theorem c8_witness :
    (claimPairs [("featureA", "plugin", [("optX", Val.bool true)]),
        ("enable_block_reuse", "kv_cache_config",
          [("enable_block_reuse", Val.bool true)])]).Nodup ∧
    ∃ a',
      (regFuncs [("featureA", "plugin", [("optX", Val.bool true)]),
          ("enable_block_reuse", "kv_cache_config",
            [("enable_block_reuse", Val.bool true)])]).arbitrate = .ok (a', []) ∧
      (∀ c ∈ [(("featureA", "plugin", [("optX", Val.bool true)]) : FuncClaim),
          ("enable_block_reuse", "kv_cache_config",
            [("enable_block_reuse", Val.bool true)])], ∀ kv ∈ c.2.2,
        Dict.find? ((Dict.find? a'.virtual_configs c.2.1).getD []) kv.1
          = some kv.2) ∧
      (regFuncs [("featureA", "plugin", [("optX", Val.bool true)]),
          ("enable_block_reuse", "kv_cache_config",
            [("enable_block_reuse", Val.bool true)])]).call
          [("plugin", []), ("kv_cache_config", [])]
        = .ok (applyVirtual [("plugin", []), ("kv_cache_config", [])]
            a'.virtual_configs, []) ∧
      (∀ c ∈ [(("featureA", "plugin", [("optX", Val.bool true)]) : FuncClaim),
          ("enable_block_reuse", "kv_cache_config",
            [("enable_block_reuse", Val.bool true)])], ∀ kv ∈ c.2.2, ∀ obj,
        Dict.find? ([("plugin", []), ("kv_cache_config", [])] : Dict (Dict Val))
          c.2.1 = some obj →
        Dict.find? ((Dict.find? (applyVirtual
            [("plugin", []), ("kv_cache_config", [])] a'.virtual_configs)
          c.2.1).getD []) kv.1 = some kv.2) :=
  ⟨by decide,
   c8_disjoint_claims_resolve
     [("featureA", "plugin", [("optX", Val.bool true)]),
      ("enable_block_reuse", "kv_cache_config",
        [("enable_block_reuse", Val.bool true)])]
     [("plugin", []), ("kv_cache_config", [])] (by decide)⟩

end LlmUtils
